import Mathlib

/-!
Verification of the span-extraction-and-conflict-resolution engine of
`extraction_script.py` (entity extraction for a travel chatbot corpus).

The Python code is shallowly embedded: entity dicts become structures,
offsets become `Int` (Python integers), character data becomes `List Char`,
and each function below is a direct translation of the correspondingly
named Python function.  Regex searches used by the code are translated to
explicit scanning functions over `List Char`.
-/

/-- An internal entity dict as produced by the extractors:
`{'category': ..., 'offset': ..., 'endPos': ..., 'text': ...}`
with inclusive offsets into the original utterance. -/
structure Entity where
  category : String
  offset : Int
  endPos : Int
  text : String
deriving DecidableEq, Repr

/-- A normalized record used inside `dedupe_entities`:
`{'category': ..., 'start': ..., 'end': ..., 'text': ...}`.
(The Python key `end` is a Lean keyword, so the field is called `endIdx`.) -/
structure Item where
  category : String
  start : Int
  endIdx : Int
  text : String
deriving DecidableEq, Repr

/-- The final output shape `{'category': ..., 'offset': ..., 'length': ...}`. -/
structure FinalEntity where
  category : String
  offset : Int
  length : Int
deriving DecidableEq, Repr

/-- Normalization step of `dedupe_entities` (offset/endPos keys to start/end keys). -/
def toItem (e : Entity) : Item :=
  ⟨e.category, e.offset, e.endPos, e.text⟩

/-- Conversion back to the output format at the end of `dedupe_entities`. -/
def fromItem (it : Item) : Entity :=
  ⟨it.category, it.start, it.endIdx, it.text⟩

/-- The priority table of `dedupe_entities`:
`{'Date': 6, 'Budget': 5, 'Time': 4, 'Location': 3, 'AirportCode': 2, 'NumPassengers': 1}`,
with `.get(category, 0)` defaulting to 0. -/
def priority (c : String) : Int :=
  if c = "Date" then 6
  else if c = "Budget" then 5
  else if c = "Time" then 4
  else if c = "Location" then 3
  else if c = "AirportCode" then 2
  else if c = "NumPassengers" then 1
  else 0

/-- The key `(category, start, end)` used for exact-duplicate removal. -/
def itemKeyTriple (it : Item) : String × Int × Int :=
  (it.category, it.start, it.endIdx)

/-- The exact-duplicate removal loop of `dedupe_entities` (`seen` set plus `uniq` list,
keeping the first occurrence of each `(category, start, end)` key). -/
def dedupeKeep (seen : List (String × Int × Int)) : List Item → List Item
  | [] => []
  | it :: rest =>
    if itemKeyTriple it ∈ seen then dedupeKeep seen rest
    else it :: dedupeKeep (itemKeyTriple it :: seen) rest

/-- The Python sort key `(x['start'], -priority.get(x['category'], 0), -(x['end']-x['start']))`. -/
def sortKey (it : Item) : Int × Int × Int :=
  (it.start, -(priority it.category), -(it.endIdx - it.start))

/-- Lexicographic order on sort-key triples, as Python compares key tuples. -/
def tripleLe (x y : Int × Int × Int) : Prop :=
  x.1 < y.1 ∨ (x.1 = y.1 ∧ (x.2.1 < y.2.1 ∨ (x.2.1 = y.2.1 ∧ x.2.2 ≤ y.2.2)))

instance : ∀ x y, Decidable (tripleLe x y) := fun x y => by
  unfold tripleLe; infer_instance

/-- The total preorder realized by `uniq.sort(key=...)`: compare the Python key tuples. -/
def keyLe (a b : Item) : Prop :=
  tripleLe (sortKey a) (sortKey b)

instance : ∀ a b, Decidable (keyLe a b) := fun a b => by
  unfold keyLe; infer_instance

instance : IsTotal Item keyLe :=
  ⟨fun a b => by unfold keyLe tripleLe; omega⟩

instance : IsTrans Item keyLe :=
  ⟨fun a b c => by unfold keyLe tripleLe; omega⟩

/-- The closed-interval overlap test of the sweep:
`not (cand['end'] < kept['start'] or cand['start'] > kept['end'])`. -/
def overlapB (cand kept : Item) : Bool :=
  !(decide (cand.endIdx < kept.start) || decide (cand.start > kept.endIdx))

/-- Python `list.remove`: delete the first element equal to `x` (no-op if absent;
the call sites always pass a present element). -/
def removeFirst (x : Item) : List Item → List Item
  | [] => []
  | y :: ys => if y = x then ys else y :: removeFirst x ys

/-- The sweep loop of `dedupe_entities`: for each candidate in sorted order, scan the
accepted list for the first overlapping kept span (`break` after it); a strictly
higher-priority candidate replaces it, an equal-priority strictly longer candidate
replaces it, otherwise the candidate is dropped; with no overlap the candidate is
appended. -/
def resolveOverlaps : List Item → List Item → List Item
  | acc, [] => acc
  | acc, cand :: rest =>
    match acc.find? (fun kept => overlapB cand kept) with
    | none => resolveOverlaps (acc ++ [cand]) rest
    | some kept =>
      if priority cand.category > priority kept.category then
        resolveOverlaps (removeFirst kept acc ++ [cand]) rest
      else if priority cand.category = priority kept.category then
        if cand.endIdx - cand.start > kept.endIdx - kept.start then
          resolveOverlaps (removeFirst kept acc ++ [cand]) rest
        else resolveOverlaps acc rest
      else resolveOverlaps acc rest

/-- `dedupe_entities`: normalize, drop exact duplicates, sort by
`(start, -priority, -length)` (Python's sort is stable, as is `insertionSort`),
sweep resolving overlaps, convert back. -/
def dedupe_entities (entities : List Entity) : List Entity :=
  match entities with
  | [] => []
  | _ =>
    let items := entities.map toItem
    let uniq := dedupeKeep [] items
    let sortedUniq := List.insertionSort keyLe uniq
    let result := resolveOverlaps [] sortedUniq
    result.map fromItem

/-- Python `str.lower()` (ASCII case mapping, which covers every string the
script compares). -/
def lowerString (s : String) : String :=
  ⟨s.data.map Char.toLower⟩

/-- `BLOCKLIST_LOWER`: the lower-cased blocklist (spaCy labels plus unwanted names). -/
def BLOCKLIST_LOWER : List String :=
  ["event", "fac", "law", "product", "norp", "percent", "person", "work_of_art",
   "act", "action", "agent", "airline", "airlines", "class", "classes",
   "confirmation", "email", "emails", "flight", "flights", "meal", "meals",
   "name", "names", "preference", "preferences", "seat", "seats", "status",
   "statuses", "ticket", "tickets", "type", "types", "value", "values"]

/-- `to_final_entities`: skip falsy (`""`) or blocklisted categories
(case-insensitively), skip non-positive lengths, emit
`{'category': cat, 'offset': start, 'length': end - start + 1}`.
(The dict-shaped inputs always carry the `offset`/`endPos` keys, so the
Python `None` checks have no counterpart on this structure.) -/
def to_final_entities : List Entity → List FinalEntity
  | [] => []
  | ent :: rest =>
    if ent.category = "" then to_final_entities rest
    else if lowerString ent.category ∈ BLOCKLIST_LOWER then to_final_entities rest
    else if ent.endPos - ent.offset + 1 ≤ 0 then to_final_entities rest
    else ⟨ent.category, ent.offset, ent.endPos - ent.offset + 1⟩ :: to_final_entities rest

/-! ### Basic lemmas about the merger building blocks -/

theorem overlapB_true_iff (a b : Item) :
    overlapB a b = true ↔ b.start ≤ a.endIdx ∧ a.start ≤ b.endIdx := by
  simp [overlapB]

theorem overlapB_false_iff (a b : Item) :
    overlapB a b = false ↔ a.endIdx < b.start ∨ b.endIdx < a.start := by
  simp [overlapB]
  omega

theorem overlapB_comm (a b : Item) : overlapB a b = overlapB b a := by
  cases hab : overlapB a b
  · cases hba : overlapB b a
    · rfl
    · rw [overlapB_false_iff] at hab
      rw [overlapB_true_iff] at hba
      omega
  · cases hba : overlapB b a
    · rw [overlapB_true_iff] at hab
      rw [overlapB_false_iff] at hba
      omega
    · rfl

theorem overlapB_symm {a b : Item} (h : overlapB a b = false) :
    overlapB b a = false := by
  rw [overlapB_comm] at h; exact h

theorem keyLe_start {a b : Item} (h : keyLe a b) : a.start ≤ b.start := by
  simp only [keyLe, tripleLe, sortKey] at h
  omega

theorem removeFirst_sublist (x : Item) : ∀ l : List Item, List.Sublist (removeFirst x l) l
  | [] => List.Sublist.refl _
  | y :: ys => by
    rw [removeFirst]
    by_cases h : y = x
    · simp only [h, if_pos rfl]
      exact List.sublist_cons_self _ _
    · simp only [if_neg h]
      exact List.Sublist.cons₂ _ (removeFirst_sublist x ys)

theorem not_mem_removeFirst_of_nodup {x : Item} {l : List Item}
    (hn : l.Nodup) : x ∉ removeFirst x l := by
  induction l with
  | nil => simp [removeFirst]
  | cons y ys ih =>
    rw [removeFirst]
    by_cases h : y = x
    · simp only [h, if_pos rfl]
      subst h
      exact (List.nodup_cons.mp hn).1
    · simp only [if_neg h]
      intro hmem
      rcases List.mem_cons.mp hmem with h' | h'
      · exact h h'.symm
      · exact ih (List.nodup_cons.mp hn).2 h'

/-- The merger's sweep never invents spans: its output is a sublist of
`done ++ pending` whenever the accumulator is a sublist of `done`
(candidates are appended at the end, removals preserve order). -/
theorem resolveOverlaps_sublist :
    ∀ (pending acc done : List Item), List.Sublist acc done →
      List.Sublist (resolveOverlaps acc pending) (done ++ pending)
  | [], acc, done, h => by simpa [resolveOverlaps] using h
  | cand :: rest, acc, done, h => by
    rw [resolveOverlaps]
    have hassoc : (done ++ [cand]) ++ rest = done ++ cand :: rest := by simp
    cases hf : acc.find? (fun kept => overlapB cand kept) with
    | none =>
      have := resolveOverlaps_sublist rest (acc ++ [cand]) (done ++ [cand])
        (List.Sublist.append h (List.Sublist.refl _))
      rwa [hassoc] at this
    | some kept =>
      by_cases h1 : priority cand.category > priority kept.category
      · simp only [if_pos h1]
        have := resolveOverlaps_sublist rest (removeFirst kept acc ++ [cand]) (done ++ [cand])
          (List.Sublist.append ((removeFirst_sublist kept acc).trans h) (List.Sublist.refl _))
        rwa [hassoc] at this
      · simp only [if_neg h1]
        by_cases h2 : priority cand.category = priority kept.category
        · simp only [if_pos h2]
          by_cases h3 : cand.endIdx - cand.start > kept.endIdx - kept.start
          · simp only [if_pos h3]
            have := resolveOverlaps_sublist rest (removeFirst kept acc ++ [cand]) (done ++ [cand])
              (List.Sublist.append ((removeFirst_sublist kept acc).trans h) (List.Sublist.refl _))
            rwa [hassoc] at this
          · simp only [if_neg h3]
            have := resolveOverlaps_sublist rest acc (done ++ [cand])
              (h.trans (List.sublist_append_left _ _))
            rwa [hassoc] at this
        · simp only [if_neg h2]
          have := resolveOverlaps_sublist rest acc (done ++ [cand])
            (h.trans (List.sublist_append_left _ _))
          rwa [hassoc] at this

/-- The pairwise-disjointness relation maintained by the sweep. -/
def ItemsDisjoint (a b : Item) : Prop := overlapB a b = false

theorem itemsDisjoint_symm : Symmetric ItemsDisjoint :=
  fun _ _ h => overlapB_symm h

/-- During the sweep, every accepted span that overlaps the current candidate
must overlap the first conflict found, because all accepted spans start no
later than the candidate does; so after a replacement the new candidate is
disjoint from everything left in the accumulator. -/
theorem removeFirst_cross_disjoint
    {acc done rest : List Item} {cand kept : Item}
    (hacc : List.Sublist acc done)
    (hsort : List.Sorted keyLe (done ++ cand :: rest))
    (hnd : (done ++ cand :: rest).Nodup)
    (hpw : acc.Pairwise ItemsDisjoint)
    (hkmem : kept ∈ acc)
    (hko : overlapB cand kept = true) :
    ∀ a ∈ removeFirst kept acc, ItemsDisjoint a cand := by
  intro a ha
  have hasub : a ∈ acc := (removeFirst_sublist kept acc).subset ha
  have haccnd : acc.Nodup := hacc.nodup (List.Nodup.of_append_left hnd)
  have hane : a ≠ kept := by
    intro h
    exact not_mem_removeFirst_of_nodup haccnd (h ▸ ha)
  have hcross : ∀ d ∈ done, keyLe d cand :=
    fun d hd => ((List.pairwise_append.mp hsort).2.2 d hd cand (List.mem_cons_self _ _))
  have hastart : a.start ≤ cand.start := keyLe_start (hcross a (hacc.subset hasub))
  have hkstart : kept.start ≤ cand.start := keyLe_start (hcross kept (hacc.subset hkmem))
  cases hover : overlapB a cand with
  | false => exact hover
  | true =>
    exfalso
    rw [overlapB_true_iff] at hover hko
    have hak : overlapB a kept = true := by
      rw [overlapB_true_iff]
      omega
    have := hpw.forall itemsDisjoint_symm hasub hkmem hane
    rw [ItemsDisjoint, hak] at this
    exact Bool.true_eq_false ▸ this

/-- Invariant of the sweep: pairwise disjointness of the accepted spans is
preserved, given that the pending candidates come after the processed prefix
of the sorted, duplicate-free list. -/
theorem resolveOverlaps_disjoint :
    ∀ (pending acc done : List Item),
      List.Sublist acc done →
      List.Sorted keyLe (done ++ pending) →
      (done ++ pending).Nodup →
      acc.Pairwise ItemsDisjoint →
      (resolveOverlaps acc pending).Pairwise ItemsDisjoint
  | [], _, _, _, _, _, hpw => hpw
  | cand :: rest, acc, done, hacc, hsort, hnd, hpw => by
    rw [resolveOverlaps]
    have hassoc : (done ++ [cand]) ++ rest = done ++ cand :: rest := by simp
    have hsort' : List.Sorted keyLe ((done ++ [cand]) ++ rest) := by rwa [hassoc]
    have hnd' : ((done ++ [cand]) ++ rest).Nodup := by rwa [hassoc]
    cases hf : acc.find? (fun kept => overlapB cand kept) with
    | none =>
      have hdisj : ∀ a ∈ acc, ItemsDisjoint a cand := by
        intro a ha
        have := List.find?_eq_none.mp hf a ha
        exact overlapB_symm (Bool.not_eq_true _ ▸ (Bool.eq_false_iff.mpr (by simpa using this)))
      have hnew : (acc ++ [cand]).Pairwise ItemsDisjoint :=
        List.pairwise_append.mpr ⟨hpw, List.pairwise_singleton _ _,
          fun a ha b hb => (List.mem_singleton.mp hb) ▸ hdisj a ha⟩
      exact resolveOverlaps_disjoint rest (acc ++ [cand]) (done ++ [cand])
        (List.Sublist.append hacc (List.Sublist.refl _)) hsort' hnd' hnew
    | some kept =>
      have hkmem : kept ∈ acc := List.mem_of_find?_eq_some hf
      have hko : overlapB cand kept = true := List.find?_some hf
      have hreplace : ((removeFirst kept acc) ++ [cand]).Pairwise ItemsDisjoint :=
        List.pairwise_append.mpr
          ⟨hpw.sublist (removeFirst_sublist kept acc), List.pairwise_singleton _ _,
            fun a ha b hb => (List.mem_singleton.mp hb) ▸
              removeFirst_cross_disjoint hacc hsort hnd hpw hkmem hko a ha⟩
      have hrepsub : List.Sublist ((removeFirst kept acc) ++ [cand]) (done ++ [cand]) :=
        List.Sublist.append ((removeFirst_sublist kept acc).trans hacc) (List.Sublist.refl _)
      have hkeepsub : List.Sublist acc (done ++ [cand]) :=
        hacc.trans (List.sublist_append_left _ _)
      by_cases h1 : priority cand.category > priority kept.category
      · simp only [if_pos h1]
        exact resolveOverlaps_disjoint rest _ _ hrepsub hsort' hnd' hreplace
      · simp only [if_neg h1]
        by_cases h2 : priority cand.category = priority kept.category
        · simp only [if_pos h2]
          by_cases h3 : cand.endIdx - cand.start > kept.endIdx - kept.start
          · simp only [if_pos h3]
            exact resolveOverlaps_disjoint rest _ _ hrepsub hsort' hnd' hreplace
          · simp only [if_neg h3]
            exact resolveOverlaps_disjoint rest _ _ hkeepsub hsort' hnd' hpw
        · simp only [if_neg h2]
          exact resolveOverlaps_disjoint rest _ _ hkeepsub hsort' hnd' hpw

/-- The duplicate-removal pass keeps exactly one item per
`(category, start, end)` key, and none with a key in `seen`. -/
theorem dedupeKeep_keys_nodup :
    ∀ (l : List Item) (seen : List (String × Int × Int)),
      ((dedupeKeep seen l).map itemKeyTriple).Nodup ∧
        ∀ k ∈ (dedupeKeep seen l).map itemKeyTriple, k ∉ seen
  | [], _ => by simp [dedupeKeep]
  | it :: rest, seen => by
    rw [dedupeKeep]
    by_cases h : itemKeyTriple it ∈ seen
    · simp only [if_pos h]
      exact dedupeKeep_keys_nodup rest seen
    · simp only [if_neg h, List.map_cons, List.nodup_cons]
      have ih := dedupeKeep_keys_nodup rest (itemKeyTriple it :: seen)
      refine ⟨⟨fun hmem => ?_, ih.1⟩, fun k hk => ?_⟩
      · exact (ih.2 _ hmem) (List.mem_cons_self _ _)
      · rcases List.mem_cons.mp hk with h' | h'
        · exact h' ▸ h
        · intro hseen
          exact (ih.2 _ h') (List.mem_cons_of_mem _ hseen)

/-- The duplicate-removal pass is the identity on a list whose keys are
already distinct and disjoint from `seen`. -/
theorem dedupeKeep_id :
    ∀ (l : List Item) (seen : List (String × Int × Int)),
      (l.map itemKeyTriple).Nodup →
      (∀ it ∈ l, itemKeyTriple it ∉ seen) →
      dedupeKeep seen l = l
  | [], _, _, _ => rfl
  | it :: rest, seen, hnd, hseen => by
    rw [dedupeKeep, if_neg (hseen it (List.mem_cons_self _ _))]
    have hnd' := (List.nodup_cons.mp (List.map_cons itemKeyTriple it rest ▸ hnd))
    refine congrArg _ (dedupeKeep_id rest _ hnd'.2 fun x hx => ?_)
    intro hmem
    rcases List.mem_cons.mp hmem with h' | h'
    · exact hnd'.1 (h' ▸ List.mem_map_of_mem itemKeyTriple hx)
    · exact hseen x (List.mem_cons_of_mem _ hx) h'

/-- The pipeline inside `dedupe_entities`, factored for reasoning
(the empty-list early return agrees with it). -/
theorem dedupe_entities_eq (l : List Entity) :
    dedupe_entities l =
      (resolveOverlaps []
        (List.insertionSort keyLe (dedupeKeep [] (l.map toItem)))).map fromItem := by
  cases l <;> rfl

theorem sortedUniq_keys_nodup (l : List Entity) :
    ((List.insertionSort keyLe (dedupeKeep [] (l.map toItem))).map itemKeyTriple).Nodup := by
  have hperm : List.Perm (List.insertionSort keyLe (dedupeKeep [] (l.map toItem)))
      (dedupeKeep [] (l.map toItem)) := List.perm_insertionSort _ _
  exact ((hperm.map itemKeyTriple).nodup_iff).mpr (dedupeKeep_keys_nodup (l.map toItem) []).1

theorem sortedUniq_nodup (l : List Entity) :
    (List.insertionSort keyLe (dedupeKeep [] (l.map toItem))).Nodup :=
  List.Nodup.of_map _ (sortedUniq_keys_nodup l)

/-- The sweep output of the full pipeline: a sublist of the sorted
duplicate-free candidate list. -/
theorem dedupe_result_sublist (l : List Entity) :
    List.Sublist
      (resolveOverlaps [] (List.insertionSort keyLe (dedupeKeep [] (l.map toItem))))
      (List.insertionSort keyLe (dedupeKeep [] (l.map toItem))) := by
  have := resolveOverlaps_sublist
    (List.insertionSort keyLe (dedupeKeep [] (l.map toItem))) [] [] (List.nil_sublist _)
  simpa using this

/-- The sweep output of the full pipeline is pairwise disjoint. -/
theorem dedupe_result_disjoint (l : List Entity) :
    (resolveOverlaps []
      (List.insertionSort keyLe (dedupeKeep [] (l.map toItem)))).Pairwise ItemsDisjoint := by
  refine resolveOverlaps_disjoint _ [] [] (List.nil_sublist _) ?_ ?_ List.Pairwise.nil
  · simpa using List.sorted_insertionSort keyLe (dedupeKeep [] (l.map toItem))
  · simpa using sortedUniq_nodup l

/-- The projection applied by `to_final_entities` to each entity. -/
def finalProj (ent : Entity) : Option FinalEntity :=
  if ent.category = "" then none
  else if lowerString ent.category ∈ BLOCKLIST_LOWER then none
  else if ent.endPos - ent.offset + 1 ≤ 0 then none
  else some ⟨ent.category, ent.offset, ent.endPos - ent.offset + 1⟩

theorem to_final_entities_eq_filterMap (l : List Entity) :
    to_final_entities l = l.filterMap finalProj := by
  induction l with
  | nil => rfl
  | cons ent rest ih =>
    rw [to_final_entities, List.filterMap_cons, finalProj]
    split_ifs <;> simp [ih]

theorem finalProj_fromItem_some {it : Item} {f : FinalEntity}
    (h : finalProj (fromItem it) = some f) :
    f.offset = it.start ∧ f.length = it.endIdx - it.start + 1 ∧
      0 < it.endIdx - it.start + 1 := by
  unfold finalProj fromItem at h
  split_ifs at h with h1 h2 h3
  injection h with h'
  subst h'
  refine ⟨rfl, rfl, ?_⟩
  simp only [not_le] at h3
  exact h3

/-- C2: for every input candidate list, every pair of entities in the final
output (after `dedupe_entities` and `to_final_entities`) satisfies
`A.offset + A.length ≤ B.offset` or `B.offset + B.length ≤ A.offset`:
no two output spans overlap. -/
theorem c2_output_spans_non_overlapping (l : List Entity) :
    (to_final_entities (dedupe_entities l)).Pairwise
      (fun A B => A.offset + A.length ≤ B.offset ∨ B.offset + B.length ≤ A.offset) := by
  rw [dedupe_entities_eq, to_final_entities_eq_filterMap, List.filterMap_map,
    List.pairwise_filterMap]
  refine (dedupe_result_disjoint l).imp ?_
  intro a b hd fa hfa fb hfb
  rw [ItemsDisjoint, overlapB_false_iff] at hd
  obtain ⟨hfa1, hfa2, hfa3⟩ := finalProj_fromItem_some hfa
  obtain ⟨hfb1, hfb2, hfb3⟩ := finalProj_fromItem_some hfb
  rw [hfa1, hfa2, hfb1, hfb2]
  omega

theorem dedupeKeep_sublist :
    ∀ (l : List Item) (seen : List (String × Int × Int)),
      List.Sublist (dedupeKeep seen l) l
  | [], _ => List.Sublist.refl _
  | it :: rest, seen => by
    rw [dedupeKeep]
    by_cases h : itemKeyTriple it ∈ seen
    · simp only [if_pos h]
      exact (dedupeKeep_sublist rest seen).trans (List.sublist_cons_self _ _)
    · simp only [if_neg h]
      exact List.Sublist.cons₂ _ (dedupeKeep_sublist rest _)

theorem dedupe_result_keys_nodup (l : List Entity) :
    ((resolveOverlaps []
      (List.insertionSort keyLe (dedupeKeep [] (l.map toItem)))).map itemKeyTriple).Nodup :=
  ((dedupe_result_sublist l).map itemKeyTriple).nodup (sortedUniq_keys_nodup l)

theorem dedupe_result_sorted (l : List Entity) :
    List.Sorted keyLe
      (resolveOverlaps [] (List.insertionSort keyLe (dedupeKeep [] (l.map toItem)))) :=
  List.Pairwise.sublist (dedupe_result_sublist l)
    (List.sorted_insertionSort keyLe (dedupeKeep [] (l.map toItem)))

/-- On a candidate list that is already pairwise disjoint the sweep accepts
everything in order: no conflict is ever found. -/
theorem resolveOverlaps_id :
    ∀ (pending acc : List Item),
      (acc ++ pending).Pairwise ItemsDisjoint →
      resolveOverlaps acc pending = acc ++ pending
  | [], acc, _ => by simp [resolveOverlaps]
  | c :: rest, acc, hpw => by
    rw [resolveOverlaps]
    have hnone : acc.find? (fun k => overlapB c k) = none := by
      rw [List.find?_eq_none]
      intro k hk
      have hdisj : ItemsDisjoint k c :=
        (List.pairwise_append.mp hpw).2.2 k hk c (List.mem_cons_self _ _)
      simp [overlapB_symm hdisj]
    rw [hnone]
    have hassoc : (acc ++ [c]) ++ rest = acc ++ c :: rest := by simp
    rw [resolveOverlaps_id rest (acc ++ [c]) (by rwa [hassoc])]
    simp

/-- C8: `dedupe_entities` emits at most one entity per distinct
`(category, start, end)` triple — the output keys are duplicate-free for every
input — and when the gazetteer and another extractor both propose "Paris" as a
Location at the same offsets, exactly one Location entity results. -/
theorem c8_one_entity_per_key :
    (∀ l : List Entity,
      ((dedupe_entities l).map (fun e => (e.category, e.offset, e.endPos))).Nodup) ∧
    dedupe_entities
        [⟨"Location", 10, 14, "Paris"⟩, ⟨"Location", 10, 14, "Paris"⟩] =
      [⟨"Location", 10, 14, "Paris"⟩] := by
  constructor
  · intro l
    rw [dedupe_entities_eq, List.map_map]
    have hmapeq : ((fun e : Entity => (e.category, e.offset, e.endPos)) ∘ fromItem) =
        itemKeyTriple := rfl
    rw [hmapeq]
    exact dedupe_result_keys_nodup l
  · decide

/-- C10: every entity in the output of `dedupe_entities` is one of the input
candidates, with category, offsets and text unchanged — the merger only
removes candidates. -/
theorem c10_output_subset_of_input (l : List Entity) (e : Entity)
    (h : e ∈ dedupe_entities l) : e ∈ l := by
  rw [dedupe_entities_eq] at h
  obtain ⟨it, hit, rfl⟩ := List.mem_map.mp h
  have h1 : it ∈ List.insertionSort keyLe (dedupeKeep [] (l.map toItem)) :=
    (dedupe_result_sublist l).subset hit
  have h2 : it ∈ dedupeKeep [] (l.map toItem) :=
    (List.perm_insertionSort keyLe _).subset h1
  have h3 : it ∈ l.map toItem := (dedupeKeep_sublist _ _).subset h2
  obtain ⟨x, hx, rfl⟩ := List.mem_map.mp h3
  exact hx

/-- C5: the merger is idempotent (and, being a pure function, deterministic):
applying `dedupe_entities` to its own output returns that output unchanged,
element for element and in the same order. -/
theorem c5_dedupe_idempotent (l : List Entity) :
    dedupe_entities (dedupe_entities l) = dedupe_entities l := by
  rw [dedupe_entities_eq l, dedupe_entities_eq]
  rw [List.map_map]
  have hcomp : toItem ∘ fromItem = id := rfl
  rw [hcomp, List.map_id]
  rw [dedupeKeep_id _ [] (dedupe_result_keys_nodup l) (by simp)]
  rw [(dedupe_result_sorted l).insertionSort_eq]
  rw [resolveOverlaps_id _ [] (by simpa using dedupe_result_disjoint l)]
  simp

/-! ### C1: the spec's description of the merge algorithm -/

/-- The sort order as the spec words it: start ascending, then priority
descending, then length (`end - start`) descending. Spec-side definition for
the refinement claim C1, to be compared with the code's negated-key sort. -/
def specLe (a b : Item) : Prop :=
  a.start < b.start ∨
    (a.start = b.start ∧
      (priority b.category < priority a.category ∨
        (priority a.category = priority b.category ∧
          b.endIdx - b.start ≤ a.endIdx - a.start)))

instance : ∀ a b, Decidable (specLe a b) := fun a b => by
  unfold specLe; infer_instance

theorem keyLe_iff_specLe (a b : Item) : keyLe a b ↔ specLe a b := by
  unfold keyLe tripleLe sortKey specLe
  dsimp only
  omega

theorem orderedInsert_congr (r s : Item → Item → Prop)
    [DecidableRel r] [DecidableRel s] (h : ∀ a b, r a b ↔ s a b) (a : Item) :
    ∀ l : List Item, List.orderedInsert r a l = List.orderedInsert s a l
  | [] => rfl
  | b :: l => by
    rw [List.orderedInsert, List.orderedInsert]
    by_cases hr : r a b
    · rw [if_pos hr, if_pos ((h a b).mp hr)]
    · rw [if_neg hr, if_neg (fun hs => hr ((h a b).mpr hs)),
        orderedInsert_congr r s h a l]

theorem insertionSort_congr (r s : Item → Item → Prop)
    [DecidableRel r] [DecidableRel s] (h : ∀ a b, r a b ↔ s a b) :
    ∀ l : List Item, List.insertionSort r l = List.insertionSort s l
  | [] => rfl
  | b :: l => by
    rw [List.insertionSort, List.insertionSort, insertionSort_congr r s h l,
      orderedInsert_congr r s h b]

/-- The sweep as the claim words it: each candidate is compared against only
the first overlapping already-accepted span; strictly higher priority removes
that kept span and the candidate is accepted; equal priority replaces it only
if the candidate is strictly longer; lower priority discards the candidate. -/
def specSweep : List Item → List Item → List Item
  | acc, [] => acc
  | acc, cand :: rest =>
    match acc.find? (fun kept => overlapB cand kept) with
    | none => specSweep (acc ++ [cand]) rest
    | some kept =>
      if priority kept.category < priority cand.category then
        specSweep (removeFirst kept acc ++ [cand]) rest
      else if priority cand.category < priority kept.category then
        specSweep acc rest
      else if kept.endIdx - kept.start < cand.endIdx - cand.start then
        specSweep (removeFirst kept acc ++ [cand]) rest
      else specSweep acc rest

theorem specSweep_eq_resolveOverlaps :
    ∀ (pending acc : List Item), specSweep acc pending = resolveOverlaps acc pending
  | [], _ => rfl
  | cand :: rest, acc => by
    rw [specSweep, resolveOverlaps]
    cases acc.find? (fun kept => overlapB cand kept) with
    | none => exact specSweep_eq_resolveOverlaps rest _
    | some kept =>
      dsimp only
      split_ifs <;> first
        | exact specSweep_eq_resolveOverlaps rest _
        | (exfalso; omega)

/-- The merge pipeline exactly as claim C1 describes it. -/
def specMerge (entities : List Entity) : List Entity :=
  match entities with
  | [] => []
  | _ =>
    (specSweep []
      (List.insertionSort specLe (dedupeKeep [] (entities.map toItem)))).map fromItem

/-- C1: `dedupe_entities` resolves overlaps by a single sweep over candidates
sorted by (start ascending, priority descending, length descending), comparing
each candidate against only the first overlapping accepted span, with
higher-priority replacement, equal-priority strictly-longer replacement, and
lower-priority discard — i.e. it coincides with the algorithm the spec
describes, for every candidate list. -/
theorem c1_merge_algorithm (l : List Entity) : dedupe_entities l = specMerge l := by
  cases l with
  | nil => rfl
  | cons e es =>
    show (resolveOverlaps []
        (List.insertionSort keyLe (dedupeKeep [] ((e :: es).map toItem)))).map fromItem =
      (specSweep []
        (List.insertionSort specLe (dedupeKeep [] ((e :: es).map toItem)))).map fromItem
    rw [insertionSort_congr keyLe specLe keyLe_iff_specLe,
      specSweep_eq_resolveOverlaps]

/-! ### C4: Date versus overlapping Budget -/

/-- Closed-interval overlap on entity dicts, the spec's
`not (A.end < B.start or A.start > B.end)`. -/
def spansOverlap (a b : Entity) : Prop :=
  ¬(a.endPos < b.offset ∨ a.offset > b.endPos)

instance : ∀ a b, Decidable (spansOverlap a b) := fun a b => by
  unfold spansOverlap; infer_instance

theorem toItem_overlap {a b : Entity} (h : spansOverlap a b) :
    overlapB (toItem b) (toItem a) = true ∧ overlapB (toItem a) (toItem b) = true := by
  unfold spansOverlap at h
  rw [overlapB_true_iff, overlapB_true_iff]
  dsimp [toItem]
  omega

theorem dedupeKeep_pair {x y : Item} (h : itemKeyTriple y ≠ itemKeyTriple x) :
    dedupeKeep [] [x, y] = [x, y] := by
  rw [dedupeKeep, if_neg (by simp), dedupeKeep, if_neg (by simp [h]), dedupeKeep]

theorem insertionSort_pair (r : Item → Item → Prop) [DecidableRel r] (x y : Item) :
    List.insertionSort r [x, y] = if r x y then [x, y] else [y, x] := by
  by_cases hr : r x y <;> simp [List.insertionSort, List.orderedInsert, hr]

theorem resolveOverlaps_two_discard (x y : Item) (hov : overlapB y x = true)
    (hp : priority y.category < priority x.category) :
    resolveOverlaps [] [x, y] = [x] := by
  simp only [resolveOverlaps, List.find?, List.nil_append, hov]
  rw [if_neg (by omega), if_neg (by omega)]

theorem resolveOverlaps_two_replace (x y : Item) (hov : overlapB y x = true)
    (hp : priority y.category > priority x.category) :
    resolveOverlaps [] [x, y] = [y] := by
  simp only [resolveOverlaps, List.find?, List.nil_append, hov]
  rw [if_pos hp]
  simp [removeFirst]

/-- C4 as stated is false: in a candidate list with a second, longer Date span,
the Date candidate `("Date", 2, 9)` overlapping the Budget candidate
`("Budget", 9, 12)` is dropped by the sweep (it loses to `("Date", 0, 8)`),
and the Budget candidate survives because the winning Date no longer reaches
offset 9. -/
theorem c4_counterexample :
    ¬ (∀ (l : List Entity) (d b : Entity), d ∈ l → b ∈ l →
        d.category = "Date" → b.category = "Budget" → spansOverlap d b →
        d ∈ dedupe_entities l ∧ b ∉ dedupe_entities l) := by
  intro h
  have hinst := h
    [⟨"Date", 0, 8, "k"⟩, ⟨"Date", 2, 9, "d"⟩, ⟨"Budget", 9, 12, "b"⟩]
    ⟨"Date", 2, 9, "d"⟩ ⟨"Budget", 9, 12, "b"⟩
    (by decide) (by decide) rfl rfl (by decide)
  exact absurd hinst.1 (by decide)

/-- C4 (amended): in a direct conflict — a candidate list consisting of one
Date candidate and one overlapping Budget candidate, in either order — the
Date candidate is the sole output of `dedupe_entities` and the Budget
candidate is dropped. (With further candidates present, the particular
overlapping Date need not survive; see the counterexample.) -/
theorem c4_date_beats_overlapping_budget (d b : Entity)
    (hd : d.category = "Date") (hb : b.category = "Budget")
    (hov : spansOverlap d b) :
    dedupe_entities [d, b] = [d] ∧ dedupe_entities [b, d] = [d] := by
  have hkeys : itemKeyTriple (toItem b) ≠ itemKeyTriple (toItem d) := by
    intro hEq
    have hcat : b.category = d.category := congrArg Prod.fst hEq
    rw [hb, hd] at hcat
    exact absurd hcat (by decide)
  have hkeys' : itemKeyTriple (toItem d) ≠ itemKeyTriple (toItem b) :=
    fun hEq => hkeys hEq.symm
  have hov1 := (toItem_overlap hov).1
  have hov2 := (toItem_overlap hov).2
  have hpb : priority (toItem b).category = 5 := by dsimp [toItem]; rw [hb]; rfl
  have hpd : priority (toItem d).category = 6 := by dsimp [toItem]; rw [hd]; rfl
  constructor
  · rw [dedupe_entities_eq]
    simp only [List.map_cons, List.map_nil]
    rw [dedupeKeep_pair hkeys, insertionSort_pair]
    by_cases hk : keyLe (toItem d) (toItem b)
    · rw [if_pos hk, resolveOverlaps_two_discard _ _ hov1 (by omega)]
      rfl
    · rw [if_neg hk, resolveOverlaps_two_replace _ _ hov2 (by omega)]
      rfl
  · rw [dedupe_entities_eq]
    simp only [List.map_cons, List.map_nil]
    rw [dedupeKeep_pair hkeys', insertionSort_pair]
    by_cases hk : keyLe (toItem b) (toItem d)
    · rw [if_pos hk, resolveOverlaps_two_replace _ _ hov2 (by omega)]
      rfl
    · rw [if_neg hk, resolveOverlaps_two_discard _ _ hov1 (by omega)]
      rfl

/-- Witness for the amended C4 at a concrete Date/Budget pair. -/
theorem c4_date_beats_overlapping_budget_witness :
    dedupe_entities [⟨"Date", 0, 5, "d"⟩, ⟨"Budget", 3, 7, "b"⟩] =
        [⟨"Date", 0, 5, "d"⟩] ∧
      dedupe_entities [⟨"Budget", 3, 7, "b"⟩, ⟨"Date", 0, 5, "d"⟩] =
        [⟨"Date", 0, 5, "d"⟩] :=
  c4_date_beats_overlapping_budget _ _ rfl rfl (by decide)

/-! ### C7: the output formatter -/

/-- The per-entity projection exactly as claim C7 words it: drop when the
category is blocklisted (case-insensitively) or the computed length is < 1,
keep the rest as `{category, offset, length}`. -/
def c7ClaimProj (ent : Entity) : Option FinalEntity :=
  if lowerString ent.category ∈ BLOCKLIST_LOWER then none
  else if ent.endPos - ent.offset + 1 ≤ 0 then none
  else some ⟨ent.category, ent.offset, ent.endPos - ent.offset + 1⟩

/-- C7 as stated is false on two counts: (1) an entity with the empty category
`""` is neither blocklisted nor short, yet `to_final_entities` drops it (the
Python `not cat` check), so the output is not exactly the claimed filter;
(2) offsets are never bounds-checked: the entity `("Date", 100, 104)` — out of
bounds for any utterance shorter than 105 characters, e.g. the empty one —
reaches the output as `{Date, offset 100, length 5}`. -/
theorem c7_counterexample :
    (¬ ∀ l : List Entity, to_final_entities l = l.filterMap c7ClaimProj) ∧
      (⟨"Date", 100, 5⟩ : FinalEntity) ∈ to_final_entities [⟨"Date", 100, 104, "x"⟩] := by
  constructor
  · intro h
    exact absurd (h [⟨"", 0, 0, ""⟩]) (by decide)
  · decide

/-- C7 (amended): `to_final_entities` outputs exactly those input entities
whose category is non-empty and not blocklisted (case-insensitively) and whose
computed length `endPos - offset + 1` is ≥ 1, projected to
`{category, offset, length}`; consequently no blocklisted category — in
particular neither "Person" nor "Ticket" in any casing — and no non-positive
length ever appears in the output.  (Offsets are passed through unchecked.) -/
theorem c7_blocklist_and_length_filter :
    (∀ l : List Entity, to_final_entities l = l.filterMap finalProj) ∧
      (∀ (l : List Entity) (f : FinalEntity), f ∈ to_final_entities l →
        lowerString f.category ∉ BLOCKLIST_LOWER ∧
          lowerString f.category ≠ "person" ∧
          lowerString f.category ≠ "ticket" ∧ 1 ≤ f.length) := by
  constructor
  · exact to_final_entities_eq_filterMap
  · intro l f hf
    rw [to_final_entities_eq_filterMap] at hf
    obtain ⟨e, _, hfe⟩ := List.mem_filterMap.mp hf
    unfold finalProj at hfe
    split_ifs at hfe with h1 h2 h3
    injection hfe with h'
    subst h'
    refine ⟨h2, fun hp => h2 ?_, fun ht => h2 ?_,
      show (1 : Int) ≤ e.endPos - e.offset + 1 by omega⟩
    · rw [show lowerString (⟨e.category, e.offset, e.endPos - e.offset + 1⟩ :
          FinalEntity).category = lowerString e.category from rfl] at hp
      rw [hp]; decide
    · rw [show lowerString (⟨e.category, e.offset, e.endPos - e.offset + 1⟩ :
          FinalEntity).category = lowerString e.category from rfl] at ht
      rw [ht]; decide

/-- Witness for the amended C7 at a concrete input. -/
theorem c7_blocklist_and_length_filter_witness :
    to_final_entities [⟨"Date", 1, 4, "y"⟩] =
        ([⟨"Date", 1, 4, "y"⟩] : List Entity).filterMap finalProj ∧
      (lowerString (⟨"Date", 1, 4⟩ : FinalEntity).category ∉ BLOCKLIST_LOWER ∧
        lowerString (⟨"Date", 1, 4⟩ : FinalEntity).category ≠ "person" ∧
        lowerString (⟨"Date", 1, 4⟩ : FinalEntity).category ≠ "ticket" ∧
        1 ≤ (⟨"Date", 1, 4⟩ : FinalEntity).length) :=
  ⟨c7_blocklist_and_length_filter.1 [⟨"Date", 1, 4, "y"⟩],
    c7_blocklist_and_length_filter.2 [⟨"Date", 1, 4, "y"⟩] ⟨"Date", 1, 4⟩ (by decide)⟩

/-- Witness for C10 at a concrete input. -/
theorem c10_output_subset_of_input_witness :
    (⟨"Date", 0, 8, "a"⟩ : Entity) ∈
      ([⟨"Date", 0, 8, "a"⟩, ⟨"Date", 2, 9, "b"⟩, ⟨"Budget", 9, 12, "c"⟩] :
        List Entity) :=
  c10_output_subset_of_input _ _ (by decide)

example : dedupe_entities
    [⟨"Budget", 2, 4, "500"⟩, ⟨"Date", 0, 9, "2025-08-24"⟩] =
    [⟨"Date", 0, 9, "2025-08-24"⟩] := by decide

/-! ### Text primitives for the regex-based helpers

Character data is embedded as `List Char`; the regex constructs the script
uses (`re.search` of a literal, `\b` word boundaries, month-word and digit
alternations) are translated to explicit scans. -/

/-- A regex word character (`\w`) for the ASCII texts the script handles. -/
def isWordChar (c : Char) : Bool :=
  c.isAlphanum || c == '_'

/-- Python `str.lower()` on character lists. -/
def lowerList (s : List Char) : List Char :=
  s.map Char.toLower

/-- Python `needle in hay` (plain substring containment). -/
def containsSub (hay needle : List Char) : Bool :=
  (List.range (hay.length + 1)).any fun i => needle.isPrefixOf (hay.drop i)

/-- A match of word `w` (all word characters) at position `i` with `\b` on
both sides. -/
def wordAtB (s : List Char) (i : Nat) (w : List Char) : Bool :=
  w.isPrefixOf (s.drop i) &&
    (decide (i = 0) || !isWordChar (s.getD (i - 1) ' ')) &&
    !isWordChar (s.getD (i + w.length) ' ')

/-- `re.search(r'\b<w>\b', s)` succeeds, for a word `w` of word characters. -/
def containsWordB (s : List Char) (w : List Char) : Bool :=
  (List.range (s.length + 1)).any fun i => wordAtB s i w

/-- The alternatives of the `MONTH_WORDS` regex (lower-case; the searches all
use `re.IGNORECASE`, modelled by lowering the text first). -/
def MONTH_WORDS_LIST : List (List Char) :=
  ["jan", "feb", "mar", "apr", "may", "jun", "jul", "aug", "sep", "sept",
   "oct", "nov", "dec", "january", "february", "march", "april", "june",
   "july", "august", "september", "october", "november",
   "december"].map String.toList

/-- `re.search(MONTH_WORDS, s, re.IGNORECASE)` succeeds on the lowered text `s`. -/
def monthInB (s : List Char) : Bool :=
  MONTH_WORDS_LIST.any fun w => containsWordB s w

/-- `re.search(r'\b\d{1,2}\b', s)` succeeds. -/
def shortNumB (s : List Char) : Bool :=
  (List.range (s.length + 1)).any fun i =>
    (s.getD i ' ').isDigit &&
      (decide (i = 0) || !isWordChar (s.getD (i - 1) ' ')) &&
      (!isWordChar (s.getD (i + 1) ' ') ||
        ((s.getD (i + 1) ' ').isDigit && !isWordChar (s.getD (i + 2) ' ')))

/-- `int(...)` of a non-empty digit string. -/
def natOfDigits (l : List Char) : Nat :=
  l.foldl (fun n c => n * 10 + (c.toNat - 48)) 0

/-- `CURRENCY_CUES` from the script. -/
def CURRENCY_CUES : List (List Char) :=
  ["$", "usd", "dollars", "eur", "€", "£", "budget", "price", "cost",
   "fare", "ticket", "pay"].map String.toList

/-- `is_token_overlapping_spans`: `any(s <= start <= e or s <= end <= e)` —
note this tests only whether one of the token's endpoints falls inside a span. -/
def is_token_overlapping_spans (start endP : Int) (spans : List (Int × Int)) : Bool :=
  spans.any fun se =>
    (decide (se.1 ≤ start) && decide (start ≤ se.2)) ||
      (decide (se.1 ≤ endP) && decide (endP ≤ se.2))

/-- The local `window = text[max(0, start-30):min(len(text), end+30)].lower()`. -/
def budgetWindow (text : List Char) (start endP : Nat) : List Char :=
  lowerList ((text.take (min text.length (endP + 30))).drop (start - 30))

/-- The local `token = text[start:end+1]`. -/
def budgetToken (text : List Char) (start endP : Nat) : List Char :=
  (text.take (endP + 1)).drop start

/-- The local `before = text[max(0, start-10):start].lower()`. -/
def budgetBefore (text : List Char) (start : Nat) : List Char :=
  lowerList ((text.take start).drop (start - 10))

/-- The local `val = int(re.sub(r'[^0-9]', '', token))` (callers guard against
the all-stripped case separately). -/
def budgetVal (text : List Char) (start endP : Nat) : Nat :=
  natOfDigits ((budgetToken text start endP).filter Char.isDigit)

/-- The final block of `is_likely_budget_token` (reached whether or not the
4-digit-year branch applied without returning): accept values in
[100, 1000000] unless "on" occurs as a word in the 10 characters before the
token and a month word occurs anywhere in the text. -/
def budgetValueCheck (text : List Char) (start endP : Nat) : Bool :=
  if 100 ≤ budgetVal text start endP ∧ budgetVal text start endP ≤ 1000000 then
    if containsWordB (budgetBefore text start) "on".toList && monthInB (lowerList text) then
      false
    else true
  else false

/-- `is_likely_budget_token(text, start, end, date_spans)`, translated
line by line (token positions are inclusive indices into `text`). -/
def is_likely_budget_token (text : List Char) (start endP : Nat)
    (date_spans : List (Int × Int)) : Bool :=
  if is_token_overlapping_spans start endP date_spans then false
  else if CURRENCY_CUES.any (fun cue => containsSub (budgetWindow text start endP) cue) then
    true
  else if decide (0 < start) && ['$', '€', '£'].contains (text.getD (start - 1) ' ') then
    true
  else if ((budgetToken text start endP).filter Char.isDigit).isEmpty then false
  else if (budgetToken text start endP).length = 4 ∧
      1900 ≤ budgetVal text start endP ∧ budgetVal text start endP ≤ 2035 then
    if monthInB (budgetWindow text start endP) then false
    else if shortNumB (budgetWindow text start endP) &&
        monthInB (budgetWindow text start endP) then false
    else budgetValueCheck text start endP
  else budgetValueCheck text start endP

/-! ### C3: the ordered decision list for budget tokens -/

/-- Genuine closed-interval overlap of the token with some date span (what
"the token overlaps any date span" means; contrast `is_token_overlapping_spans`,
which misses spans strictly inside the token). -/
def tokenOverlapsSymm (start endP : Int) (spans : List (Int × Int)) : Bool :=
  spans.any fun se => !(decide (endP < se.1) || decide (start > se.2))

/-- The decision list exactly as claim C3 states it, rule (1) reading
"overlaps" as genuine interval overlap. -/
def budget_decision_claimed (text : List Char) (start endP : Nat)
    (date_spans : List (Int × Int)) : Bool :=
  if tokenOverlapsSymm start endP date_spans then false
  else if CURRENCY_CUES.any (fun cue => containsSub (budgetWindow text start endP) cue) then
    true
  else if decide (0 < start) && ['$', '€', '£'].contains (text.getD (start - 1) ' ') then
    true
  else if ((budgetToken text start endP).filter Char.isDigit).isEmpty then false
  else if (budgetToken text start endP).length = 4 ∧
      1900 ≤ budgetVal text start endP ∧ budgetVal text start endP ≤ 2035 ∧
      monthInB (budgetWindow text start endP) = true then false
  else budgetValueCheck text start endP

/-- The decision list with rule (1) amended to the code's endpoint-containment
test; otherwise exactly the ordered rules of claim C3. -/
def budget_decision_list (text : List Char) (start endP : Nat)
    (date_spans : List (Int × Int)) : Bool :=
  if is_token_overlapping_spans start endP date_spans then false
  else if CURRENCY_CUES.any (fun cue => containsSub (budgetWindow text start endP) cue) then
    true
  else if decide (0 < start) && ['$', '€', '£'].contains (text.getD (start - 1) ' ') then
    true
  else if ((budgetToken text start endP).filter Char.isDigit).isEmpty then false
  else if (budgetToken text start endP).length = 4 ∧
      1900 ≤ budgetVal text start endP ∧ budgetVal text start endP ≤ 2035 ∧
      monthInB (budgetWindow text start endP) = true then false
  else budgetValueCheck text start endP

/-- C3 as stated is false: with the date span `(1, 3)` lying strictly inside
the 5-digit token `10000` at `(0, 4)`, rule (1) of the claimed decision list
rejects, but `is_likely_budget_token` does not detect the overlap (its test
only looks at the token's endpoints) and accepts the token as a budget. -/
theorem c3_counterexample :
    ¬ (∀ (text : List Char) (start endP : Nat) (spans : List (Int × Int)),
        ((text.take (endP + 1)).drop start).all Char.isDigit = true →
        3 ≤ endP + 1 - start → endP + 1 - start ≤ 6 → endP < text.length →
        is_likely_budget_token text start endP spans =
          budget_decision_claimed text start endP spans) := by
  intro h
  have hinst := h "10000".toList 0 4 [(1, 3)]
    (by decide) (by decide) (by decide) (by decide)
  exact absurd hinst (by decide)

/-- C3 (amended): `is_likely_budget_token` decides by exactly the ordered
decision list of the claim, with rule (1)'s overlap test being the code's
endpoint-containment check (a date span strictly inside the token is not
detected).  The equality holds for every text, token position and span list. -/
theorem year_branch_eq (l4 l4m : Prop) [Decidable l4] [Decidable l4m]
    (m s vc : Bool) (hiff : l4m ↔ (l4 ∧ m = true)) :
    (if l4 then (if m then false else if s && m then false else vc) else vc) =
      (if l4m then false else vc) := by
  by_cases hl : l4
  · cases m
    · have hnm : ¬l4m := by simp [hiff]
      simp [hl, hnm]
    · have hm : l4m := hiff.mpr ⟨hl, rfl⟩
      simp [hl, hm]
  · have hnm : ¬l4m := fun h => hl (hiff.mp h).1
    simp [hl, hnm]

theorem c3_budget_decision_list (text : List Char) (start endP : Nat)
    (spans : List (Int × Int)) :
    is_likely_budget_token text start endP spans =
      budget_decision_list text start endP spans := by
  unfold is_likely_budget_token budget_decision_list
  by_cases h1 : is_token_overlapping_spans (start : Int) (endP : Int) spans = true
  · rw [if_pos h1, if_pos h1]
  · rw [if_neg h1, if_neg h1]
    by_cases h2 :
        (CURRENCY_CUES.any fun cue => containsSub (budgetWindow text start endP) cue) = true
    · rw [if_pos h2, if_pos h2]
    · rw [if_neg h2, if_neg h2]
      by_cases h3 :
          (decide (0 < start) && ['$', '€', '£'].contains (text.getD (start - 1) ' ')) = true
      · rw [if_pos h3, if_pos h3]
      · rw [if_neg h3, if_neg h3]
        by_cases h4 : ((budgetToken text start endP).filter Char.isDigit).isEmpty = true
        · rw [if_pos h4, if_pos h4]
        · rw [if_neg h4, if_neg h4]
          exact year_branch_eq _ _ _ _ _ (by tauto)

example : is_likely_budget_token "Budget is $1900 for two".toList 11 14 [] = true := by
  decide
example : is_likely_budget_token "Meeting on 15 August 2024".toList 21 24 [] = false := by
  decide

/-! ### Regex matchers for the Budget patterns and the ISO date fallback -/

/-- The regex `\b` assertion at position `i` (positions run 0 .. length). -/
def bAt (t : List Char) (i : Nat) : Bool :=
  if i = 0 then isWordChar (t.getD 0 ' ')
  else isWordChar (t.getD (i - 1) ' ') != isWordChar (t.getD i ' ')

def digitAt (t : List Char) (i : Nat) : Bool :=
  (t.getD i ' ').isDigit

def charAt (t : List Char) (i : Nat) (c : Char) : Bool :=
  t.getD i ' ' == c

/-- `(\.\d{1,2})?\b` starting at `k` (greedy, with backtracking); returns the
end-exclusive match position. -/
def amountDec (t : List Char) (k : Nat) : Option Nat :=
  (if charAt t k '.' && digitAt t (k + 1) && digitAt t (k + 2) && bAt t (k + 3) then
    some (k + 3) else none) <|>
  (if charAt t k '.' && digitAt t (k + 1) && bAt t (k + 2) then some (k + 2) else none) <|>
  (if bAt t k then some k else none)

/-- `(,\d{3})*(\.\d{1,2})?\b` starting at `k` (greedy star with backtracking). -/
def amountCommas (t : List Char) : Nat → Nat → Option Nat
  | 0, k => amountDec t k
  | fuel + 1, k =>
    if charAt t k ',' && digitAt t (k + 1) && digitAt t (k + 2) && digitAt t (k + 3) then
      amountCommas t fuel (k + 4) <|> amountDec t k
    else amountDec t k

/-- `\d{1,3}(,\d{3})*(\.\d{1,2})?\b` starting at `i0` (greedy `\d{1,3}` with
backtracking into the shorter alternatives). -/
def amountDigits (t : List Char) (i0 : Nat) : Option Nat :=
  (if digitAt t i0 && digitAt t (i0 + 1) && digitAt t (i0 + 2) then
    amountCommas t t.length (i0 + 3) else none) <|>
  (if digitAt t i0 && digitAt t (i0 + 1) then amountCommas t t.length (i0 + 2) else none) <|>
  (if digitAt t i0 then amountCommas t t.length (i0 + 1) else none)

/-- `\s?` then the amount, starting at `j` (the character after the currency
marker). -/
def afterCurrencyMarker (t : List Char) (j : Nat) : Option Nat :=
  if (t.getD j ' ').isWhitespace then amountDigits t (j + 1) <|> amountDigits t j
  else amountDigits t j

/-- One attempted match of the Budget pattern
`\b\$\s?\d{1,3}(?:,\d{3})*(?:\.\d{1,2})?\b` at position `i`. -/
def dollarTryAt (t : List Char) (i : Nat) : Option Nat :=
  if bAt t i && charAt t i '$' then afterCurrencyMarker t (i + 1)
  else none

/-- One attempted match of the second Budget pattern
`\b(?:usd|dollars|eur|€|£)\s?\d{1,3}(?:,\d{3})*(?:\.\d{1,2})?\b`
(`re.IGNORECASE`) at position `i`. -/
def currencyWordTryAt (t : List Char) (i : Nat) : Option Nat :=
  (["usd".toList, "dollars".toList, "eur".toList, "€".toList, "£".toList].map
    (fun w =>
      if bAt t i && w.isPrefixOf (lowerList (t.drop i)) then
        afterCurrencyMarker t (i + w.length)
      else none)).foldl (fun a b => a <|> b) none

/-- `re.finditer` over positions: emit each leftmost match and continue at its
end (advancing at least one position); `fuel` bounds the scan. -/
def scanMatches (tryAt : Nat → Option Nat) : Nat → Nat → List (Nat × Nat)
  | 0, _ => []
  | fuel + 1, i =>
    match tryAt i with
    | some stop =>
      (i, stop) :: scanMatches tryAt fuel (if i < stop then stop else i + 1)
    | none => scanMatches tryAt fuel (i + 1)

/-- All matches of the `$`-amount Budget pattern in `t` as
(start, end-exclusive) pairs. -/
def budgetDollarMatches (t : List Char) : List (Nat × Nat) :=
  scanMatches (dollarTryAt t) (t.length + 1) 0

/-- All matches of the currency-word Budget pattern in `t`. -/
def budgetCurrencyWordMatches (t : List Char) : List (Nat × Nat) :=
  scanMatches (currencyWordTryAt t) (t.length + 1) 0

example : budgetDollarMatches "cost is$1,900.50 ok".toList = [(7, 16)] := by decide
example : budgetCurrencyWordMatches "price usd 500 ok".toList = [(6, 13)] := by decide

/-! ### C9: `find_date_spans`

The primary recognizer is the third-party `dateparser` library; the claim is
about how `find_date_spans` handles its outcomes, so the parser result —
`None` after an exception, or a list of (matched substring, parsed value)
pairs — is a parameter of the embedding, with the parsed values of an
arbitrary type `α`. -/

/-- A span produced by `find_date_spans`:
`(start, end, matched_text, parsed_dt)`, with `parsed = none` on the ISO
fallback path (Python `None`). -/
structure DateSpan (α : Type) where
  start : Nat
  endIdx : Int
  matched : List Char
  parsed : Option α
deriving DecidableEq

/-- `re.search(re.escape(match_text), text, flags=re.IGNORECASE)`: the index
of the first case-insensitive occurrence of `pat` in `t`, if any. -/
def firstOccurCI (t pat : List Char) : Option Nat :=
  (List.range (t.length + 1)).find? fun i =>
    (lowerList pat).isPrefixOf (lowerList (t.drop i))

/-- The primary loop of `find_date_spans`: for each parser match, recover
offsets at the first case-insensitive occurrence; drop the match silently if
it is not found. -/
def primaryDateSpans {α : Type} (ms : List (List Char × α)) (t : List Char) :
    List (DateSpan α) :=
  ms.filterMap fun m =>
    (firstOccurCI t m.1).map fun i => ⟨i, (i : Int) + m.1.length - 1, m.1, some m.2⟩

def dateSepAt (t : List Char) (k : Nat) : Bool :=
  charAt t k '/' || charAt t k '-'

/-- `\d{1,2}\b` at `k` (greedy with backtracking). -/
def isoTail (t : List Char) (k : Nat) : Option Nat :=
  (if digitAt t k && digitAt t (k + 1) && bAt t (k + 2) then some (k + 2) else none) <|>
  (if digitAt t k && bAt t (k + 1) then some (k + 1) else none)

/-- `\d{1,2}`, a slash-or-dash separator, `\d{1,2}\b`, at `k`. -/
def isoMid (t : List Char) (k : Nat) : Option Nat :=
  (if digitAt t k && digitAt t (k + 1) && dateSepAt t (k + 2) then isoTail t (k + 3)
   else none) <|>
  (if digitAt t k && dateSepAt t (k + 1) then isoTail t (k + 2) else none)

/-- One attempted match of the fallback regex — `\b20\d{2}`, then a
slash-or-dash separator, `\d{1,2}`, another separator, `\d{1,2}\b` —
at position `i`. -/
def isoTryAt (t : List Char) (i : Nat) : Option Nat :=
  if bAt t i && charAt t i '2' && charAt t (i + 1) '0' && digitAt t (i + 2) &&
      digitAt t (i + 3) && dateSepAt t (i + 4) then
    isoMid t (i + 5)
  else none

/-- The fallback loop: ISO-ish regex spans
`(m.start(), m.end()-1, text[m.start():m.end()], None)`. -/
def isoDateSpans (α : Type) (t : List Char) : List (DateSpan α) :=
  (scanMatches (isoTryAt t) (t.length + 1) 0).map fun m =>
    ⟨m.1, (m.2 : Int) - 1, (t.take m.2).drop m.1, none⟩

/-- `find_date_spans(text)`, with the `dateparser.search.search_dates` outcome
as the parameter `res` (`none` models an exception, and the code's `if res:`
guard skips an empty result). -/
def find_date_spans (α : Type) (res : Option (List (List Char × α)))
    (t : List Char) : List (DateSpan α) :=
  (match res with
   | none => []
   | some ms => if ms.isEmpty then [] else primaryDateSpans ms t) ++ isoDateSpans α t

example : find_date_spans Nat none "due 2025-08-24 ok".toList =
    [⟨4, 13, "2025-08-24".toList, none⟩] := by decide

/-- C9: `find_date_spans` (total in this embedding, as the Python function
catches the parser exception) degrades a parser exception (`none`) or an
empty parser result to zero primary spans, leaving only the ISO fallback;
every primary span it produces sits at the first case-insensitive occurrence
of its matched substring, with `end = start + len - 1`; and a parser match
whose substring does not occur in the text is silently dropped. -/
theorem c9_find_date_spans_degrades (α : Type) :
    (∀ t : List Char, find_date_spans α none t = isoDateSpans α t) ∧
      (∀ t : List Char, find_date_spans α (some []) t = isoDateSpans α t) ∧
      (∀ (ms : List (List Char × α)) (t : List Char) (sp : DateSpan α),
        sp ∈ primaryDateSpans ms t →
          firstOccurCI t sp.matched = some sp.start ∧
            sp.endIdx = (sp.start : Int) + sp.matched.length - 1) ∧
      (∀ (ms : List (List Char × α)) (t mt : List Char) (d : α),
        firstOccurCI t mt = none →
          primaryDateSpans ((mt, d) :: ms) t = primaryDateSpans ms t) := by
  refine ⟨fun t => rfl, fun t => rfl, ?_, ?_⟩
  · intro ms t sp hsp
    obtain ⟨m, _, hmap⟩ := List.mem_filterMap.mp hsp
    cases ho : firstOccurCI t m.1 with
    | none => rw [ho] at hmap; cases hmap
    | some i =>
      rw [ho] at hmap
      injection hmap with h'
      subst h'
      exact ⟨ho, rfl⟩
  · intro ms t mt d h
    unfold primaryDateSpans
    rw [List.filterMap_cons]
    dsimp only
    rw [h]
    rfl

/-- Witness for C9's quantified parts at concrete inputs. -/
theorem c9_find_date_spans_degrades_witness :
    (firstOccurCI "ok may 8 end".toList
          (⟨3, 7, "May 8".toList, some 0⟩ : DateSpan Nat).matched =
        some (⟨3, 7, "May 8".toList, some 0⟩ : DateSpan Nat).start ∧
      (⟨3, 7, "May 8".toList, some 0⟩ : DateSpan Nat).endIdx =
        ((⟨3, 7, "May 8".toList, some 0⟩ : DateSpan Nat).start : Int) +
          (⟨3, 7, "May 8".toList, some 0⟩ : DateSpan Nat).matched.length - 1) ∧
      primaryDateSpans [("zz".toList, (0 : Nat))] "ok".toList =
        primaryDateSpans ([] : List (List Char × Nat)) "ok".toList :=
  ⟨(c9_find_date_spans_degrades Nat).2.2.1 [("May 8".toList, 0)] "ok may 8 end".toList
      ⟨3, 7, "May 8".toList, some 0⟩ (by decide),
    (c9_find_date_spans_degrades Nat).2.2.2 [] "ok".toList "zz".toList 0 (by decide)⟩

/-- C6 is a code bug: on `"Budget is $1900 for two"` neither Budget regex
matches at all — `\b\$` demands a word character immediately before the `$`
(here a space precedes it), and `\d{1,3}(,\d{3})*` cannot match the 4-digit
ungrouped `1900` anyway — so no Budget span covering `$1900` (offsets 10-14)
is ever emitted; the numeric heuristic instead accepts the bare token `1900`
at offsets 11-14, excluding the `$`. -/
theorem c6_dollar_pattern_cannot_match :
    budgetDollarMatches "Budget is $1900 for two".toList = [] ∧
      budgetCurrencyWordMatches "Budget is $1900 for two".toList = [] ∧
      is_likely_budget_token "Budget is $1900 for two".toList 11 14 [] = true := by
  exact ⟨by decide, by decide, by decide⟩

example : to_final_entities [⟨"Person", 0, 3, "x"⟩, ⟨"Date", 1, 4, "y"⟩] =
    [⟨"Date", 1, 4⟩] := by decide
